import Mathlib

/-!
# Verification of the Life-Expectancy (WHO) analysis pipeline

Shallow embedding of the data pipeline in `Life_Expectancy.py`:
load → copy → strip column labels → ratio-dependent imputation →
derived columns (`Life Expectancy Difference`, `Mortality Alcohol Index`,
`Health Expenditure Per Capita`) → GDP decile bucketing (`pd.qcut`) →
group-by aggregations → Pearson correlation matrix.

Numeric cells are modelled by `XVal`: a rational number, `+∞`, `-∞`, or
`NaN`.  `NaN` doubles as the absent-value marker, exactly as a float
`NaN` does in the source; `isna`/`fillna`/`mean`/`median` treat `NaN` as
absent but treat infinities as ordinary values, mirroring pandas.
Arithmetic on `XVal` follows IEEE-754 semantics (without signed zero,
which the pipeline never produces): `NaN` propagates, `x/0` is a signed
infinity for finite nonzero `x`, `0/0 = NaN`, `∞ - ∞ = NaN`, `0·∞ = NaN`.
-/

namespace LifeExp

/-- Extended numeric value: finite rational, `+∞`, `-∞`, or `NaN`
(the absent-value marker, as in a pandas float column). -/
inductive XVal where
  | fin (q : ℚ)
  | pinf
  | ninf
  | nan
deriving DecidableEq, Repr

namespace XVal

/-- Is this a finite value? -/
def isFinite : XVal → Bool
  | fin _ => true
  | _ => false

/-- Is this an infinity? -/
def isInf : XVal → Bool
  | pinf => true
  | ninf => true
  | _ => false

/-- IEEE-style addition: `NaN` propagates, `∞ + (-∞) = NaN`. -/
def add : XVal → XVal → XVal
  | nan, _ => nan
  | _, nan => nan
  | fin a, fin b => fin (a + b)
  | fin _, pinf => pinf
  | fin _, ninf => ninf
  | pinf, fin _ => pinf
  | ninf, fin _ => ninf
  | pinf, pinf => pinf
  | ninf, ninf => ninf
  | pinf, ninf => nan
  | ninf, pinf => nan

/-- IEEE-style subtraction: `NaN` propagates, `∞ - ∞ = NaN`. -/
def sub : XVal → XVal → XVal
  | nan, _ => nan
  | _, nan => nan
  | fin a, fin b => fin (a - b)
  | fin _, pinf => ninf
  | fin _, ninf => pinf
  | pinf, fin _ => pinf
  | ninf, fin _ => ninf
  | pinf, pinf => nan
  | ninf, ninf => nan
  | pinf, ninf => pinf
  | ninf, pinf => ninf

/-- IEEE-style multiplication: `NaN` propagates, `0 · ∞ = NaN`. -/
def mul : XVal → XVal → XVal
  | nan, _ => nan
  | _, nan => nan
  | fin a, fin b => fin (a * b)
  | fin a, pinf => if a > 0 then pinf else if a < 0 then ninf else nan
  | fin a, ninf => if a > 0 then ninf else if a < 0 then pinf else nan
  | pinf, fin b => if b > 0 then pinf else if b < 0 then ninf else nan
  | ninf, fin b => if b > 0 then ninf else if b < 0 then pinf else nan
  | pinf, pinf => pinf
  | ninf, ninf => pinf
  | pinf, ninf => ninf
  | ninf, pinf => ninf

/-- IEEE-style division (no signed zero): for finite `a ≠ 0`, `a / 0`
is an infinity of the sign of `a`; `0 / 0 = NaN`; `∞ / ∞ = NaN`;
finite / ∞ = 0. -/
def div : XVal → XVal → XVal
  | nan, _ => nan
  | _, nan => nan
  | fin a, fin b =>
      if b = 0 then (if a > 0 then pinf else if a < 0 then ninf else nan)
      else fin (a / b)
  | fin _, pinf => fin 0
  | fin _, ninf => fin 0
  | pinf, fin b => if b < 0 then ninf else pinf
  | ninf, fin b => if b < 0 then pinf else ninf
  | pinf, pinf => nan
  | pinf, ninf => nan
  | ninf, pinf => nan
  | ninf, ninf => nan

/-- Binary maximum in the extended order `-∞ < finite < +∞`
(only used on non-`NaN` arguments). -/
def max2 : XVal → XVal → XVal
  | nan, _ => nan
  | _, nan => nan
  | fin a, fin b => fin (max a b)
  | pinf, _ => pinf
  | _, pinf => pinf
  | ninf, x => x
  | x, ninf => x

/-- Binary minimum in the extended order `-∞ < finite < +∞`. -/
def min2 : XVal → XVal → XVal
  | nan, _ => nan
  | _, nan => nan
  | fin a, fin b => fin (min a b)
  | ninf, _ => ninf
  | _, ninf => ninf
  | pinf, x => x
  | x, pinf => x

/-- The order `-∞ ≤ finite ≤ +∞` used for sorting non-absent values
(`NaN` is only ever sorted after filtering; it sorts as largest, as in
numpy). -/
def xle : XVal → XVal → Prop
  | _, nan => True
  | nan, _ => False
  | ninf, _ => True
  | _, ninf => False
  | fin a, fin b => a ≤ b
  | _, pinf => True
  | pinf, _ => False

instance : DecidableRel xle := fun a b => by
  cases a <;> cases b <;>
    first
      | exact isTrue trivial
      | exact isFalse id
      | exact inferInstanceAs (Decidable (_ ≤ _))

instance : IsTotal XVal xle :=
  ⟨fun a b => by
    cases a <;> cases b <;>
      first
        | exact Or.inl trivial
        | exact Or.inr trivial
        | exact le_total _ _⟩

instance : IsTrans XVal xle :=
  ⟨fun a b c => by
    cases a <;> cases b <;> cases c <;>
      first
        | exact fun h1 h2 => le_trans h1 h2
        | exact fun _ _ => trivial
        | exact fun h _ => h.elim
        | exact fun _ h => h.elim⟩

end XVal

open XVal

/-- The values of a column that are present (`df.notna()`):
everything except `NaN`; infinities count as present, as in pandas. -/
def presentVals (v : List XVal) : List XVal :=
  v.filter (fun x => x ≠ XVal.nan)

/-- The finite values of a column, as rationals. -/
def presentRats (v : List XVal) : List ℚ :=
  v.filterMap (fun x => match x with | XVal.fin q => some q | _ => none)

/-- Number of absent (`NaN`) cells in a column (`df[col].isna().sum()`). -/
def countNan (v : List XVal) : ℕ :=
  (v.filter (fun x => x = XVal.nan)).length

/-- Sum of a list of extended values (pandas sums left-to-right;
the empty sum is `0`, as in `Series.sum`). -/
def xsum (v : List XVal) : XVal :=
  v.foldr XVal.add (XVal.fin 0)

/-- `Series.mean()`: skip `NaN`s, sum the present values (infinities
included), divide by the number of present values.  The mean of an
all-absent column is `0 / 0 = NaN`, as in pandas. -/
def xmean (v : List XVal) : XVal :=
  XVal.div (xsum (presentVals v)) (XVal.fin (presentVals v).length)

/-- `Series.median()`: sort the present values; take the middle one
(odd count) or the average of the two middle ones (even count).
The median of an all-absent column is `NaN`. -/
def xmedian (v : List XVal) : XVal :=
  let s := (presentVals v).insertionSort XVal.xle
  let n := s.length
  if n = 0 then XVal.nan
  else if n % 2 = 1 then s.getD (n / 2) XVal.nan
  else XVal.div (XVal.add (s.getD (n / 2 - 1) XVal.nan) (s.getD (n / 2) XVal.nan))
         (XVal.fin 2)

/-- `Series.max()`: maximum of the present values, `NaN` if none. -/
def xmaxP (v : List XVal) : XVal :=
  match presentVals v with
  | [] => XVal.nan
  | h :: t => t.foldl XVal.max2 h

/-- `Series.min()`: minimum of the present values, `NaN` if none. -/
def xminP (v : List XVal) : XVal :=
  match presentVals v with
  | [] => XVal.nan
  | h :: t => t.foldl XVal.min2 h

/-- `Series.fillna(x)`: replace every `NaN` cell by `x`. -/
def fillna (v : List XVal) (x : XVal) : List XVal :=
  v.map (fun c => if c = XVal.nan then x else c)

/-! ## Missing-value ratio (`nan_percent`, line 90 of the source)

`nan_percent = (db_clean.isna().sum() / len(db_clean) * 100).round(1)`.
`numpy.round` rounds half to even (banker's rounding). -/

/-- Round a rational to the nearest integer, ties to even
(the rounding mode of `numpy.round` / `Series.round`). -/
def roundHalfEven (q : ℚ) : ℤ :=
  let f := ⌊q⌋
  let r := q - (f : ℚ)
  if r < 1 / 2 then f
  else if 1 / 2 < r then f + 1
  else if f % 2 = 0 then f else f + 1

/-- Round a rational to one decimal place, ties to even
(`Series.round(1)`). -/
def round1 (q : ℚ) : ℚ :=
  (roundHalfEven (q * 10) : ℚ) / 10

/-- `nan_percent[col]` for a column of `n` rows: percentage of absent
cells, rounded to one decimal place. -/
def nanPercent (v : List XVal) (n : ℕ) : ℚ :=
  round1 ((countNan v : ℚ) / (n : ℚ) * 100)

/-! ## Tables

A table is an ordered list of named columns; a column is either a
string column (`Country`, `Status`) or a numeric column.  Rows are
positions: cell `i` of every column belongs to row `i`. -/

/-- A column: string-valued (object dtype) or numeric (float/int dtype). -/
inductive Col where
  | strCol (vals : List String)
  | numCol (vals : List XVal)
deriving DecidableEq, Repr

/-- Number of cells in a column. -/
def Col.len : Col → ℕ
  | .strCol s => s.length
  | .numCol v => v.length

/-- A table: ordered association list of column name to column. -/
structure Table where
  cols : List (String × Col)
deriving DecidableEq, Repr

/-- `len(df)`: the row count, read off the first column (0 for a table
with no columns). -/
def Table.nrows (t : Table) : ℕ :=
  match t.cols with
  | [] => 0
  | (_, c) :: _ => c.len

/-- Every column has the same length as the table's row count. -/
def Table.wellFormed (t : Table) : Prop :=
  ∀ p ∈ t.cols, (p.2 : Col).len = t.nrows

instance (t : Table) : Decidable t.wellFormed :=
  inferInstanceAs (Decidable (∀ p ∈ t.cols, (p.2 : Col).len = t.nrows))

/-- Look up a column by name (first match, as in pandas label lookup
on a table with unique labels). -/
def Table.getCol (t : Table) (name : String) : Option Col :=
  (t.cols.find? (fun p => p.1 = name)).map (·.2)

/-- The numeric column of the given name (`[]` absent a numeric column
of that name; the pipeline only uses names it has). -/
def Table.numColOf (t : Table) (name : String) : List XVal :=
  match t.getCol name with
  | some (Col.numCol v) => v
  | _ => []

/-- The string column of the given name. -/
def Table.strColOf (t : Table) (name : String) : List String :=
  match t.getCol name with
  | some (Col.strCol s) => s
  | _ => []

/-- Append a derived column (`db_clean[name] = ...` for a fresh name). -/
def Table.addCol (t : Table) (name : String) (c : Col) : Table :=
  ⟨t.cols ++ [(name, c)]⟩

/-- `db.copy()`: a deep copy; with value semantics, the same table. -/
def Table.copy (t : Table) : Table :=
  ⟨t.cols.map (fun p => (p.1, p.2))⟩

/-! ## The Cleaner (lines 81–109)

`db_clean = db.copy()`; `db_clean.columns = db_clean.columns.str.strip()`;
then for every numeric column, impute by the `nan_percent` branches.
Both `if`s test the `nan_percent` value computed before the loop, so the
median of the second branch is taken over a column the first branch did
not touch (the two conditions are mutually exclusive). -/

/-- `str.strip()` on a column label: drop leading and trailing
whitespace characters. -/
def stripStr (s : String) : String :=
  ⟨((s.data.dropWhile fun c => c.isWhitespace).reverse.dropWhile
      fun c => c.isWhitespace).reverse⟩

/-- `db_clean.columns = db_clean.columns.str.strip()`. -/
def stripLabels (t : Table) : Table :=
  ⟨t.cols.map (fun p => (stripStr p.1, p.2))⟩

/-- The per-column imputation step of the loop at lines 102–109:
non-numeric columns are skipped; a numeric column with
`0 < nan_percent ≤ 1.2` is `fillna`-ed with its mean, with
`1.2 < nan_percent ≤ 50` with its median, and is otherwise left
unchanged.  `n` is `len(db_clean)`. -/
def imputeVals (v : List XVal) (n : ℕ) : List XVal :=
  let p := nanPercent v n
  let v1 := if 0 < p ∧ p ≤ 12 / 10 then fillna v (xmean v) else v
  if 12 / 10 < p ∧ p ≤ 50 then fillna v1 (xmedian v1) else v1

/-- The loop body of lines 102–109 on one column. -/
def imputeCol (c : Col) (n : ℕ) : Col :=
  match c with
  | Col.strCol s => Col.strCol s
  | Col.numCol v => Col.numCol (imputeVals v n)

/-- The Cleaner: copy, strip labels, impute every column. -/
def cleanTable (db : Table) : Table :=
  let t := stripLabels db.copy
  ⟨t.cols.map (fun p => (p.1, imputeCol p.2 t.nrows))⟩

/-- Does the lookup hold a string column? -/
def isStrSome : Option Col → Bool
  | some (Col.strCol _) => true
  | _ => false

/-- Does the lookup hold a numeric column? -/
def isNumSome : Option Col → Bool
  | some (Col.numCol _) => true
  | _ => false

/-- The columns the Feature Deriver reads, with their dtypes — the
schema of the WHO dataset after label stripping. -/
def Table.hasPipelineCols (t : Table) : Bool :=
  isStrSome (t.getCol "Country") && isNumSome (t.getCol "Life expectancy") &&
  isNumSome (t.getCol "Adult Mortality") && isNumSome (t.getCol "Alcohol") &&
  isNumSome (t.getCol "Total expenditure") && isNumSome (t.getCol "Population")

/-! ## Grouping -/

/-- The values of `vs` on the rows whose key cell is `k`
(`df.groupby(key)[val]` for one group). -/
def groupVals (ks : List String) (vs : List XVal) (k : String) : List XVal :=
  (ks.zip vs).filterMap (fun p => if p.1 = k then some p.2 else none)

/-- `df.groupby(key)[val].mean()`: one row per distinct key, carrying the
mean of the group's values.  (pandas orders the output by key; the order
of the group rows is irrelevant to every property below, so groups are
listed in first-occurrence order.) -/
def groupMeans (ks : List String) (vs : List XVal) : List (String × XVal) :=
  ks.dedup.map (fun k => (k, xmean (groupVals ks vs k)))

/-- `df.groupby(key)[[val]].mean()` on named columns of a table, e.g.
`db_clean.groupby("Country")[["Health Expenditure Per Capita"]].mean()`
(line 304). -/
def groupMeansBy (t : Table) (key val : String) : List (String × XVal) :=
  groupMeans (t.strColOf key) (t.numColOf val)

/-! ## The Feature Deriver (lines 124–128) -/

/-- `groupby('Country')['Life expectancy'].transform(lambda x: x.max() - x.min())`:
every row receives max − min of its country's values. -/
def transformRange (ks : List String) (vs : List XVal) : List XVal :=
  ks.map (fun k => XVal.sub (xmaxP (groupVals ks vs k)) (xminP (groupVals ks vs k)))

/-- Row-wise `Total expenditure / (Population / 1000000)` (line 128). -/
def hepcCol (totexp pop : List XVal) : List XVal :=
  List.zipWith (fun a b => XVal.div a (XVal.div b (XVal.fin 1000000))) totexp pop

/-- The Feature Deriver: append the three derived columns in source
order (lines 124, 126, 128). -/
def deriveFeatures (t : Table) : Table :=
  let t1 := t.addCol "Life Expectancy Difference"
      (Col.numCol (transformRange (t.strColOf "Country") (t.numColOf "Life expectancy")))
  let t2 := t1.addCol "Mortality Alcohol Index"
      (Col.numCol (List.zipWith XVal.mul (t1.numColOf "Adult Mortality")
        (t1.numColOf "Alcohol")))
  t2.addCol "Health Expenditure Per Capita"
      (Col.numCol (hepcCol (t2.numColOf "Total expenditure") (t2.numColOf "Population")))

/-- Loader → Cleaner → Feature Deriver (lines 81–128). -/
def cleanDerived (db : Table) : Table :=
  deriveFeatures (cleanTable db)

/-! ## GDP deciles (`pd.qcut(db_clean["GDP"], q=10, labels=False)`, line 186)

`qcut` computes the 11 quantile edges of the present values at levels
`0, 0.1, …, 1` (linear interpolation at position `level·(n-1)` of the
sorted values), raises `ValueError` on duplicate edges
(`duplicates='raise'` is the default), and otherwise labels each present
value with its right-closed bin, the lowest bin closed on both ends;
absent values get no label.  Failure (`none`) models the raise.
Infinite inputs are outside the modelled fragment (`none`): the
pipeline's GDP column comes from the CSV and median imputation, so it is
finite-or-absent. -/

/-- The quantile of the sorted list `s` at level `i/10`:
linear interpolation at position `(s.length - 1) * i / 10`. -/
def quantileEdge (s : List ℚ) (i : ℕ) : ℚ :=
  let p : ℚ := ((s.length : ℚ) - 1) * i / 10
  let f := (⌊p⌋).toNat
  let g : ℚ := p - ((⌊p⌋ : ℤ) : ℚ)
  if g = 0 then s.getD f 0
  else s.getD f 0 + g * (s.getD (f + 1) 0 - s.getD f 0)

/-- The 11 decile edges of a sorted list. -/
def qcutEdges (s : List ℚ) : List ℚ :=
  (List.range 11).map (quantileEdge s)

/-- The bin label of a present value `q`: the number of interior/upper
edges strictly below `q` (right-closed bins, lowest bin closed). -/
def qcutLabel (s : List ℚ) (q : ℚ) : ℕ :=
  ((List.range 10).map (fun i => quantileEdge s (i + 1))).countP (fun e => decide (e < q))

/-- Are the edges pairwise distinct, i.e. strictly increasing?
(`qcut` raises `ValueError: Bin edges must be unique` otherwise.) -/
def strictlyIncreasing : List ℚ → Bool
  | [] => true
  | [_] => true
  | a :: b :: t => decide (a < b) && strictlyIncreasing (b :: t)

/-- `pd.qcut(v, q=10, labels=False)`. -/
def qcut10 (v : List XVal) : Option (List (Option ℕ)) :=
  if v.any XVal.isInf then none
  else
    let s := (presentRats v).insertionSort (· ≤ ·)
    if s.length = 0 then none
    else if strictlyIncreasing (qcutEdges s) then
      some (v.map (fun x =>
        match x with
        | XVal.fin q => some (qcutLabel s q)
        | _ => none))
    else none

/-- Group a labelled column and average a value column over each label
(`db_clean.groupby('GDP Decile')['Life expectancy'].mean()`, line 187);
unlabelled (absent-GDP) rows are dropped, labels sorted ascending. -/
def groupMeansNat (pairs : List (Option ℕ × XVal)) : List (ℕ × XVal) :=
  ((pairs.filterMap Prod.fst).dedup.insertionSort (· ≤ ·)).map (fun k =>
    (k, xmean (pairs.filterMap (fun p => if p.1 = some k then some p.2 else none))))

/-- `db_clean_GDP_Decile_trend` (lines 186–187): decile-bucketed mean of
`Life expectancy`; `none` when `qcut` raises. -/
def gdpDecileTrend (t : Table) : Option (List (ℕ × XVal)) :=
  (qcut10 (t.numColOf "GDP")).map (fun ls =>
    groupMeansNat (ls.zip (t.numColOf "Life expectancy")))

/-- `db_clean['GDP Decile'] = pd.qcut(...)` (line 186): the label column
as floats (`labels=False` yields a float column with `NaN` for absent). -/
def addDecile (t : Table) : Option Table :=
  (qcut10 (t.numColOf "GDP")).map (fun ls =>
    t.addCol "GDP Decile" (Col.numCol (ls.map (fun l =>
      match l with
      | some k => XVal.fin k
      | none => XVal.nan))))

/-! ## Script state (for the raw-table preservation claim)

The script holds two tables, `db` (line 23) and `db_clean` (line 81);
every statement after line 81 reads or writes `db_clean` only. -/

/-- The two script variables after the pipeline has run. -/
structure ScriptState where
  db : Table
  db_clean : Table
deriving DecidableEq, Repr

/-- Run the whole pipeline: clean, derive, add the decile column
(`none` when `qcut` raises, in which case the script dies before
producing its final state). -/
def scriptRun (db : Table) : Option ScriptState :=
  (addDecile (cleanDerived db)).map (fun c => ⟨db, c⟩)

/-! ## Correlation matrix (lines 347–355)

`db_clean[cols].corr()` computes pairwise Pearson correlation through
`nancorr`, whose validity mask is `np.isfinite`: for each pair of
columns it keeps exactly the rows where both cells are finite (`NaN`
and `±∞` are masked out alike) and computes the entry
`(n·Σxy - Σx·Σy) / sqrt((n·Σx² - (Σx)²)·(n·Σy² - (Σy)²))`
over those rows; the entry is `NaN` when the denominator vanishes
(constant column, or fewer than two paired finite rows).  `none`
models a `NaN` entry. -/

/-- The rows on which both columns are finite (the `np.isfinite`
pairwise mask of `nancorr`), as rational pairs. -/
def finPairs (l : List (XVal × XVal)) : List (ℚ × ℚ) :=
  l.filterMap (fun p =>
    match p with
    | (XVal.fin a, XVal.fin b) => some (a, b)
    | _ => none)

/-- `n·Σxy - Σx·Σy`: the covariance numerator (n² times the population
covariance; the common factors cancel in the correlation). -/
def covN (l : List (ℚ × ℚ)) : ℚ :=
  (l.length : ℚ) * (l.map (fun p => p.1 * p.2)).sum
    - (l.map Prod.fst).sum * (l.map Prod.snd).sum

/-- Variance numerator of the first components. -/
def varNfst (l : List (ℚ × ℚ)) : ℚ :=
  covN (l.map (fun p => (p.1, p.1)))

/-- Variance numerator of the second components. -/
def varNsnd (l : List (ℚ × ℚ)) : ℚ :=
  covN (l.map (fun p => (p.2, p.2)))

/-- One Pearson-correlation entry of `DataFrame.corr()`: Pearson over
the rows where both cells are finite. -/
noncomputable def corrEntry (xs ys : List XVal) : Option ℝ :=
  let l := finPairs (xs.zip ys)
  if varNfst l * varNsnd l = 0 then none
  else some ((covN l : ℝ) / Real.sqrt ((varNfst l : ℝ) * (varNsnd l : ℝ)))

/-- The fixed column subset of the `corr` call (lines 347–355). -/
def corrColumns : List String :=
  ["Life expectancy", "Adult Mortality", "Alcohol", "Mortality Alcohol Index",
   "GDP", "Schooling", "Health Expenditure Per Capita"]

/-- Entry `(i, j)` of the correlation matrix over the seven fixed
columns of the cleaned+derived table. -/
noncomputable def corrMatrix (t : Table) (i j : ℕ) : Option ℝ :=
  corrEntry (t.numColOf (corrColumns.getD i "")) (t.numColOf (corrColumns.getD j ""))

/-- Variance numerator of one column over its finite values
(`n·Σq² - (Σq)²`). -/
def colVarN (xs : List XVal) : ℚ :=
  ((presentRats xs).length : ℚ) * ((presentRats xs).map (fun q => q * q)).sum
    - (presentRats xs).sum * (presentRats xs).sum

/-! ## Concrete example columns and tables used as evaluation inputs -/

/-- 250-row column with 3 absent cells: missing ratio exactly 1.2 %. -/
def exC1 : List XVal := List.replicate 247 (XVal.fin 1) ++ List.replicate 3 XVal.nan

/-- 4-row column with 1 absent cell: missing ratio 25 %, median branch. -/
def exC1b : List XVal := [XVal.fin 1, XVal.fin 2, XVal.nan, XVal.fin 4]

/-- 100-row column with 1 absent cell: missing ratio 1 %, mean branch. -/
def exC2a : List XVal := List.replicate 99 (XVal.fin 2) ++ [XVal.nan]

/-- 3-row column with 1 absent cell: missing ratio 33.3 %, median branch. -/
def exC2 : List XVal := [XVal.fin 1, XVal.fin 3, XVal.nan]

/-- Fully-present column: missing ratio 0. -/
def exC7a : List XVal := [XVal.fin 1, XVal.fin 2]

/-- Column with 3 of 4 cells absent: missing ratio 75 %. -/
def exC7b : List XVal := [XVal.nan, XVal.nan, XVal.nan, XVal.fin 1]

/-- Country keys of the three-row Afghanistan example. -/
def exC4ks : List String := ["Afghanistan", "Afghanistan", "Afghanistan"]

/-- `Life expectancy` values of the Afghanistan example. -/
def exC4vs : List XVal := [XVal.fin 58.8, XVal.fin 59.2, XVal.fin 59.5]

/-- Two-country table whose GDP column makes `qcut` succeed. -/
def exC5 : Table :=
  ⟨[("Country", Col.strCol ["A", "B"]),
    ("GDP", Col.numCol [XVal.fin 1, XVal.fin 2])]⟩

/-- Constant `Life expectancy` column for the decile examples. -/
def exC3life : List XVal := List.replicate 12 (XVal.fin 50)

/-- 12-row GDP column — 11 distinct present values, yet one decile bin
is empty: the quantile edges are `1, 1.2, 2.3, …` with no value in
`(1, 1.2]`. -/
def exC3gdp : List XVal :=
  [XVal.fin 0, XVal.fin 1, XVal.fin 1, XVal.fin 2, XVal.fin 3, XVal.fin 4,
   XVal.fin 5, XVal.fin 6, XVal.fin 7, XVal.fin 8, XVal.fin 9, XVal.fin 10]

/-- Table carrying `exC3gdp` with a constant `Life expectancy` column. -/
def exC3 : Table :=
  ⟨[("GDP", Col.numCol exC3gdp),
    ("Life expectancy", Col.numCol exC3life)]⟩

/-- 12 distinct GDP values: `qcut` succeeds and uses all 10 labels. -/
def exC3b : List XVal :=
  [XVal.fin 1, XVal.fin 2, XVal.fin 3, XVal.fin 4, XVal.fin 5, XVal.fin 6,
   XVal.fin 7, XVal.fin 8, XVal.fin 9, XVal.fin 10, XVal.fin 11, XVal.fin 12]

/-- Two rows of one country whose `Health Expenditure Per Capita` comes
out as `+∞` and `-∞` (`Total expenditure` of opposite signs, zero
`Population`). -/
def exC10 : Table :=
  ⟨[("Country", Col.strCol ["A", "A"]),
    ("Life expectancy", Col.numCol [XVal.fin 70, XVal.fin 60]),
    ("Adult Mortality", Col.numCol [XVal.fin 1, XVal.fin 1]),
    ("Alcohol", Col.numCol [XVal.fin 1, XVal.fin 1]),
    ("Total expenditure", Col.numCol [XVal.fin 1, XVal.fin (-1)]),
    ("Population", Col.numCol [XVal.fin 0, XVal.fin 0])]⟩

/-- Keys/values with one `+∞` and one absent cell in the single group. -/
def exC10ks : List String := ["A", "A", "A"]

/-- Values for the witness group: a finite value, `+∞`, and `NaN`. -/
def exC10vs : List XVal := [XVal.fin 1, XVal.pinf, XVal.nan]

/-- Six-column two-row table with the full pipeline schema. -/
def exC9 : Table :=
  ⟨[("Country", Col.strCol ["A", "B"]),
    ("Life expectancy", Col.numCol [XVal.fin 70, XVal.fin 60]),
    ("Adult Mortality", Col.numCol [XVal.fin 100, XVal.fin 200]),
    ("Alcohol", Col.numCol [XVal.fin 3, XVal.nan]),
    ("Total expenditure", Col.numCol [XVal.fin 5, XVal.fin 6]),
    ("Population", Col.numCol [XVal.fin 1000, XVal.fin 2000])]⟩

/-- Column with two present values and a zero / an absent `Population`
row, for the per-capita witness. -/
def exC8te : List XVal := [XVal.fin 5, XVal.fin 3]

/-- Populations: zero and absent. -/
def exC8pop : List XVal := [XVal.fin 0, XVal.nan]

/-- Table over the seven correlation columns in which `GDP` is constant:
its diagonal correlation entry is `NaN`, not `1.0`. -/
def exC6 : Table :=
  ⟨[("Life expectancy", Col.numCol [XVal.fin 70, XVal.fin 60]),
    ("Adult Mortality", Col.numCol [XVal.fin 100, XVal.fin 200]),
    ("Alcohol", Col.numCol [XVal.fin 3, XVal.fin 4]),
    ("Mortality Alcohol Index", Col.numCol [XVal.fin 300, XVal.fin 800]),
    ("GDP", Col.numCol [XVal.fin 5, XVal.fin 5]),
    ("Schooling", Col.numCol [XVal.fin 10, XVal.fin 12]),
    ("Health Expenditure Per Capita", Col.numCol [XVal.fin 1, XVal.fin 2])]⟩

/-- A `Life expectancy` column that contains an infinity besides two
varying finite values: `corr` masks the infinity out (`np.isfinite`)
and its diagonal entry is still `1.0`. -/
def exC6b : Table :=
  ⟨[("Life expectancy", Col.numCol [XVal.fin 70, XVal.fin 60, XVal.pinf])]⟩

/-! ## Lemmas about the imputation branches -/

theorem imputeVals_mean_branch {v : List XVal} {n : ℕ}
    (h : 0 < nanPercent v n ∧ nanPercent v n ≤ 12 / 10) :
    imputeVals v n = fillna v (xmean v) := by
  have h2 : ¬(12 / 10 < nanPercent v n ∧ nanPercent v n ≤ 50) :=
    fun hc => absurd h.2 (not_le.mpr hc.1)
  simp only [imputeVals]
  rw [if_pos h, if_neg h2]

theorem imputeVals_median_branch {v : List XVal} {n : ℕ}
    (h : 12 / 10 < nanPercent v n ∧ nanPercent v n ≤ 50) :
    imputeVals v n = fillna v (xmedian v) := by
  have h1 : ¬(0 < nanPercent v n ∧ nanPercent v n ≤ 12 / 10) :=
    fun hc => absurd hc.2 (not_le.mpr h.1)
  simp only [imputeVals]
  rw [if_neg h1, if_pos h]

theorem imputeVals_skip {v : List XVal} {n : ℕ}
    (h : nanPercent v n = 0 ∨ 50 < nanPercent v n) :
    imputeVals v n = v := by
  have h1 : ¬(0 < nanPercent v n ∧ nanPercent v n ≤ 12 / 10) := by
    rintro ⟨hgt, hle⟩
    rcases h with h | h <;> linarith
  have h2 : ¬(12 / 10 < nanPercent v n ∧ nanPercent v n ≤ 50) := by
    rintro ⟨hgt, hle⟩
    rcases h with h | h <;> linarith
  simp only [imputeVals]
  rw [if_neg h1, if_neg h2]

theorem fillna_getElem?_of_nan {v : List XVal} {i : ℕ} {x : XVal}
    (h : v[i]? = some XVal.nan) :
    (fillna v x)[i]? = some x := by
  rw [fillna, List.getElem?_map, h]
  simp

/-! ## Lemmas about means of finite data -/

theorem presentVals_map_fin {v : List XVal}
    (h : ∀ x ∈ v, x = XVal.nan ∨ x.isFinite = true) :
    presentVals v = (presentRats v).map XVal.fin := by
  induction v with
  | nil => rfl
  | cons x t ih =>
      have ht := ih (fun y hy => h y (List.mem_cons_of_mem _ hy))
      rcases h x (List.mem_cons_self x t) with hx | hx
      · subst hx
        simpa [presentVals, presentRats] using ht
      · cases x with
        | fin q => simpa [presentVals, presentRats] using ht
        | pinf => simp [XVal.isFinite] at hx
        | ninf => simp [XVal.isFinite] at hx
        | nan => simp [XVal.isFinite] at hx

theorem xsum_map_fin (l : List ℚ) : xsum (l.map XVal.fin) = XVal.fin l.sum := by
  induction l with
  | nil => rfl
  | cons q t ih => simp [xsum, XVal.add, List.foldr] at ih ⊢; rw [ih]

theorem xmean_of_fins {v : List XVal}
    (hfin : ∀ x ∈ v, x = XVal.nan ∨ x.isFinite = true)
    (hne : presentRats v ≠ []) :
    xmean v = XVal.fin ((presentRats v).sum / ((presentRats v).length : ℚ)) := by
  have hv := presentVals_map_fin hfin
  have hq : ((presentRats v).length : ℚ) ≠ 0 :=
    Nat.cast_ne_zero.mpr (fun hl => hne (List.length_eq_zero.mp hl))
  rw [xmean, hv, xsum_map_fin]
  simp only [XVal.div, List.length_map]
  rw [if_neg hq]

/-- C1: For every numeric column the Cleaner selects the imputation
branch from the column's missing ratio `nan_percent` (absent count /
row count as a percentage, rounded to one decimal): with
`0 < nan_percent ≤ 1.2` the column is filled with its mean, with
`1.2 < nan_percent ≤ 50` with its median, and a ratio of exactly `1.2`
takes the mean branch. -/
theorem imputation_branch_selection (v : List XVal) (n : ℕ) :
    (0 < nanPercent v n ∧ nanPercent v n ≤ 12 / 10 →
      imputeVals v n = fillna v (xmean v)) ∧
    (12 / 10 < nanPercent v n ∧ nanPercent v n ≤ 50 →
      imputeVals v n = fillna v (xmedian v)) ∧
    (nanPercent v n = 12 / 10 →
      imputeVals v n = fillna v (xmean v)) := by
  refine ⟨fun h => imputeVals_mean_branch h, fun h => imputeVals_median_branch h, fun h => ?_⟩
  exact imputeVals_mean_branch ⟨by rw [h]; norm_num, le_of_eq h⟩

/-- Witness for C1: a 250-row column with 3 absent cells has
`nan_percent` exactly `1.2` and is mean-filled; a 4-row column with one
absent cell (ratio 25 %) is median-filled. -/
theorem imputation_branch_selection_witness :
    nanPercent exC1 250 = 12 / 10 ∧
    imputeVals exC1 250 = fillna exC1 (xmean exC1) ∧
    imputeVals exC1b 4 = fillna exC1b (xmedian exC1b) :=
  ⟨by with_unfolding_all decide,
    (imputation_branch_selection exC1 250).2.2 (by with_unfolding_all decide),
    (imputation_branch_selection exC1b 4).2.1 (by with_unfolding_all decide)⟩

/-- C7: a numeric column whose missing ratio is `0` or above `50` is
left entirely unmodified by the Cleaner (absent cells stay absent), and
a non-numeric column is never modified regardless of its ratio. -/
theorem untouched_columns (v : List XVal) (s : List String) (n : ℕ) :
    (nanPercent v n = 0 ∨ 50 < nanPercent v n →
      imputeCol (Col.numCol v) n = Col.numCol v) ∧
    imputeCol (Col.strCol s) n = Col.strCol s := by
  refine ⟨fun h => ?_, rfl⟩
  simp only [imputeCol]
  rw [imputeVals_skip h]

/-- Witness for C7: a fully-present column, a 75 %-missing column, and a
string column all pass through the Cleaner unchanged. -/
theorem untouched_columns_witness :
    nanPercent exC7a 2 = 0 ∧
    imputeCol (Col.numCol exC7a) 2 = Col.numCol exC7a ∧
    50 < nanPercent exC7b 4 ∧
    imputeCol (Col.numCol exC7b) 4 = Col.numCol exC7b ∧
    imputeCol (Col.strCol ["x", "y"]) 2 = Col.strCol ["x", "y"] :=
  ⟨by with_unfolding_all decide,
    (untouched_columns exC7a [] 2).1 (Or.inl (by with_unfolding_all decide)),
    by with_unfolding_all decide,
    (untouched_columns exC7b [] 4).1 (Or.inr (by with_unfolding_all decide)),
    (untouched_columns [] ["x", "y"] 2).2⟩

/-- C2: every cell that was absent before imputation is filled with the
statistic of the column's raw present values — the mean in a
mean-branch column, the median in a median-branch column; the two
branches are mutually exclusive, so each column is filled by at most one
strategy; and over finite data the mean is sum-of-present over
count-of-present. -/
theorem imputed_cell_values (v : List XVal) (n i : ℕ) :
    (0 < nanPercent v n ∧ nanPercent v n ≤ 12 / 10 → v[i]? = some XVal.nan →
      (imputeVals v n)[i]? = some (xmean v)) ∧
    (12 / 10 < nanPercent v n ∧ nanPercent v n ≤ 50 → v[i]? = some XVal.nan →
      (imputeVals v n)[i]? = some (xmedian v)) ∧
    ¬((0 < nanPercent v n ∧ nanPercent v n ≤ 12 / 10) ∧
      (12 / 10 < nanPercent v n ∧ nanPercent v n ≤ 50)) ∧
    ((∀ x ∈ v, x = XVal.nan ∨ x.isFinite = true) → presentRats v ≠ [] →
      xmean v = XVal.fin ((presentRats v).sum / ((presentRats v).length : ℚ))) := by
  refine ⟨fun h hnan => ?_, fun h hnan => ?_, fun hc => ?_, fun h1 h2 => xmean_of_fins h1 h2⟩
  · rw [imputeVals_mean_branch h]; exact fillna_getElem?_of_nan hnan
  · rw [imputeVals_median_branch h]; exact fillna_getElem?_of_nan hnan
  · exact absurd hc.1.2 (not_le.mpr hc.2.1)

/-- C4: the derived `Life Expectancy Difference` cell of every row is
max − min of the `Life expectancy` values of the row's country, so any
two rows of the same country carry the same value. -/
theorem life_expectancy_difference_constant (ks : List String) (vs : List XVal)
    (i j : ℕ) (k : String) (hi : ks[i]? = some k) (hj : ks[j]? = some k) :
    (transformRange ks vs)[i]? =
      some (XVal.sub (xmaxP (groupVals ks vs k)) (xminP (groupVals ks vs k))) ∧
    (transformRange ks vs)[j]? = (transformRange ks vs)[i]? := by
  have hmap : ∀ m : ℕ, ks[m]? = some k →
      (transformRange ks vs)[m]? =
        some (XVal.sub (xmaxP (groupVals ks vs k)) (xminP (groupVals ks vs k))) := by
    intro m hm
    rw [transformRange, List.getElem?_map, hm]
    rfl
  exact ⟨hmap i hi, by rw [hmap i hi, hmap j hj]⟩

/-- Witness for C4: three Afghanistan rows with `Life expectancy`
`[58.8, 59.2, 59.5]` all receive `59.5 - 58.8 = 0.7`. -/
theorem life_expectancy_difference_constant_witness :
    (transformRange exC4ks exC4vs)[0]? = some (XVal.fin (7 / 10)) ∧
    (transformRange exC4ks exC4vs)[2]? = (transformRange exC4ks exC4vs)[0]? := by
  have h := life_expectancy_difference_constant exC4ks exC4vs 0 2 "Afghanistan"
    (by decide) (by decide)
  refine ⟨?_, h.2⟩
  rw [h.1]
  with_unfolding_all decide

/-- C5: the pipeline never mutates the raw loaded table — when the
script runs to completion, the `db` component of its final state is the
table as loaded (`db_clean = db.copy()` and every later write targets
`db_clean`). -/
theorem raw_table_preserved (db : Table) (s : ScriptState)
    (h : scriptRun db = some s) : s.db = db := by
  rw [scriptRun] at h
  rcases Option.map_eq_some'.mp h with ⟨c, _, hfc⟩
  rw [← hfc]

/-- Witness for C5: a concrete two-row table runs through the whole
pipeline and comes back out as the untouched `db` component. -/
theorem raw_table_preserved_witness :
    ((scriptRun exC5).getD ⟨exC5, exC5⟩).db = exC5 :=
  raw_table_preserved exC5 ((scriptRun exC5).getD ⟨exC5, exC5⟩)
    (by with_unfolding_all decide)

/-! ## Lemmas about table shape -/

theorem fillna_length (v : List XVal) (x : XVal) : (fillna v x).length = v.length := by
  simp [fillna]

theorem imputeVals_length (v : List XVal) (n : ℕ) :
    (imputeVals v n).length = v.length := by
  simp only [imputeVals]
  split_ifs <;> simp [fillna]

theorem imputeCol_len (c : Col) (n : ℕ) : (imputeCol c n).len = c.len := by
  cases c <;> simp [imputeCol, Col.len, imputeVals_length]

theorem Table.copy_eq (t : Table) : t.copy = t := by
  cases t
  simp [Table.copy]

theorem stripLabels_nrows (t : Table) : (stripLabels t).nrows = t.nrows := by
  obtain ⟨cols⟩ := t
  cases cols <;> simp [stripLabels, Table.nrows]

theorem cleanTable_cols (db : Table) :
    (cleanTable db).cols =
      db.cols.map (fun p => (stripStr p.1, imputeCol p.2 db.nrows)) := by
  rw [cleanTable]
  simp only [Table.copy_eq, stripLabels_nrows]
  simp [stripLabels, List.map_map]

theorem cleanTable_nrows (db : Table) : (cleanTable db).nrows = db.nrows := by
  rw [Table.nrows, cleanTable_cols]
  cases hc : db.cols with
  | nil => rw [Table.nrows, hc]; rfl
  | cons p rest => simp [Table.nrows, hc, imputeCol_len]

theorem cleanTable_wellFormed {db : Table} (h : db.wellFormed) :
    (cleanTable db).wellFormed := by
  intro p hp
  rw [cleanTable_cols] at hp
  rcases List.mem_map.mp hp with ⟨q, hq, rfl⟩
  rw [cleanTable_nrows]
  exact (imputeCol_len q.2 db.nrows).trans (h q hq)

theorem getCol_mem {t : Table} {nm : String} {c : Col}
    (h : t.getCol nm = some c) : (nm, c) ∈ t.cols := by
  rw [Table.getCol] at h
  rcases Option.map_eq_some'.mp h with ⟨p, hp, rfl⟩
  have hmem := List.mem_of_find?_eq_some hp
  have heq := List.find?_some hp
  obtain ⟨p1, p2⟩ := p
  simp only [decide_eq_true_eq] at heq
  subst heq
  exact hmem

theorem getCol_len {t : Table} (hwf : t.wellFormed) {nm : String} {c : Col}
    (h : t.getCol nm = some c) : c.len = t.nrows :=
  hwf _ (getCol_mem h)

theorem find?_append_some {α : Type} {l1 l2 : List α} {p : α → Bool} {a : α}
    (h : l1.find? p = some a) : (l1 ++ l2).find? p = some a := by
  induction l1 with
  | nil => simp at h
  | cons x t ih =>
      rw [List.cons_append]
      cases hpx : p x
      · rw [List.find?_cons_of_neg _ (by simp [hpx])] at h ⊢
        exact ih h
      · rw [List.find?_cons_of_pos _ hpx] at h ⊢
        exact h

theorem getCol_addCol {t : Table} {nm nm2 : String} {c c2 : Col}
    (h : t.getCol nm = some c) : (t.addCol nm2 c2).getCol nm = some c := by
  rw [Table.getCol] at h ⊢
  rcases Option.map_eq_some'.mp h with ⟨p, hp, rfl⟩
  rw [Table.addCol, find?_append_some hp]
  rfl

theorem numColOf_of_getCol {t : Table} {nm : String} {v : List XVal}
    (h : t.getCol nm = some (Col.numCol v)) : t.numColOf nm = v := by
  rw [Table.numColOf, h]

theorem strColOf_of_getCol {t : Table} {nm : String} {s : List String}
    (h : t.getCol nm = some (Col.strCol s)) : t.strColOf nm = s := by
  rw [Table.strColOf, h]

theorem isStrSome_iff {o : Option Col} :
    isStrSome o = true ↔ ∃ s, o = some (Col.strCol s) := by
  cases o with
  | none => simp [isStrSome]
  | some c => cases c <;> simp [isStrSome]

theorem isNumSome_iff {o : Option Col} :
    isNumSome o = true ↔ ∃ v, o = some (Col.numCol v) := by
  cases o with
  | none => simp [isNumSome]
  | some c => cases c <;> simp [isNumSome]

theorem addCol_cols (t : Table) (nm : String) (c : Col) :
    (t.addCol nm c).cols = t.cols ++ [(nm, c)] := rfl

theorem addCol_nrows {t : Table} (h : t.cols ≠ []) (nm : String) (c : Col) :
    (t.addCol nm c).nrows = t.nrows := by
  obtain ⟨cols⟩ := t
  cases cols with
  | nil => exact absurd rfl h
  | cons p rest => simp [Table.addCol, Table.nrows]

/-- C9: the Cleaner and Feature Deriver preserve row count and row
order: on any well-formed table with the pipeline's schema, the
cleaned+derived table has the raw row count, every one of its columns
(original and derived) has that many cells, and every string column
(in particular `Country`, which fixes the row order) passes through with
its cells in the original order. -/
theorem pipeline_preserves_rows (db : Table) (hwf : db.wellFormed)
    (hschema : (cleanTable db).hasPipelineCols = true) :
    (cleanDerived db).nrows = db.nrows ∧
    (∀ p ∈ (cleanDerived db).cols, (p.2 : Col).len = db.nrows) ∧
    (∀ nm s, (nm, Col.strCol s) ∈ db.cols →
      (stripStr nm, Col.strCol s) ∈ (cleanDerived db).cols) := by
  have hTwf := cleanTable_wellFormed hwf
  have hTn := cleanTable_nrows db
  simp only [Table.hasPipelineCols, Bool.and_eq_true] at hschema
  obtain ⟨⟨⟨⟨⟨hco, hle⟩, ham⟩, hal⟩, hte⟩, hpo⟩ := hschema
  rcases isStrSome_iff.mp hco with ⟨ks, hks⟩
  rcases isNumSome_iff.mp hle with ⟨lv, hlv⟩
  rcases isNumSome_iff.mp ham with ⟨am, hamv⟩
  rcases isNumSome_iff.mp hal with ⟨al, halv⟩
  rcases isNumSome_iff.mp hte with ⟨te, htev⟩
  rcases isNumSome_iff.mp hpo with ⟨po, hpov⟩
  have hksl : ks.length = db.nrows := by
    have := getCol_len hTwf hks
    simpa [Col.len, hTn] using this
  have hlvl : lv.length = db.nrows := by
    have := getCol_len hTwf hlv
    simpa [Col.len, hTn] using this
  have haml : am.length = db.nrows := by
    have := getCol_len hTwf hamv
    simpa [Col.len, hTn] using this
  have hall : al.length = db.nrows := by
    have := getCol_len hTwf halv
    simpa [Col.len, hTn] using this
  have htel : te.length = db.nrows := by
    have := getCol_len hTwf htev
    simpa [Col.len, hTn] using this
  have hpol : po.length = db.nrows := by
    have := getCol_len hTwf hpov
    simpa [Col.len, hTn] using this
  have hne : (cleanTable db).cols ≠ [] := List.ne_nil_of_mem (getCol_mem hks)
  simp only [cleanDerived, deriveFeatures]
  rw [strColOf_of_getCol hks, numColOf_of_getCol hlv,
    numColOf_of_getCol (getCol_addCol hamv), numColOf_of_getCol (getCol_addCol halv),
    numColOf_of_getCol (getCol_addCol (getCol_addCol htev)),
    numColOf_of_getCol (getCol_addCol (getCol_addCol hpov))]
  refine ⟨?_, ?_, ?_⟩
  · rw [addCol_nrows (by simp [Table.addCol]), addCol_nrows (by simp [Table.addCol]),
      addCol_nrows hne, hTn]
  · intro p hp
    rw [addCol_cols, addCol_cols, addCol_cols] at hp
    rcases List.mem_append.mp hp with hp1 | hp1
    · rcases List.mem_append.mp hp1 with hp2 | hp2
      · rcases List.mem_append.mp hp2 with hp3 | hp3
        · exact (hTwf p hp3).trans hTn
        · rcases List.mem_singleton.mp hp3 with rfl
          simp [Col.len, transformRange, hksl]
      · rcases List.mem_singleton.mp hp2 with rfl
        simp [Col.len, List.length_zipWith, haml, hall]
    · rcases List.mem_singleton.mp hp1 with rfl
      simp [Col.len, hepcCol, List.length_zipWith, htel, hpol]
  · intro nm s hmem
    rw [addCol_cols, addCol_cols, addCol_cols]
    refine List.mem_append_left _ (List.mem_append_left _ (List.mem_append_left _ ?_))
    rw [cleanTable_cols]
    exact List.mem_map.mpr ⟨(nm, Col.strCol s), hmem, rfl⟩

/-- Witness for C9: the six-column two-row example table keeps its two
rows and its `Country` column through cleaning and derivation. -/
theorem pipeline_preserves_rows_witness :
    (cleanDerived exC9).nrows = exC9.nrows ∧
    ("Country", Col.strCol ["A", "B"]) ∈ (cleanDerived exC9).cols := by
  have h := pipeline_preserves_rows exC9 (by with_unfolding_all decide)
    (by with_unfolding_all decide)
  refine ⟨h.1, ?_⟩
  have hs : stripStr "Country" = "Country" := by decide
  have := h.2.2 "Country" ["A", "B"] (by decide)
  rwa [hs] at this

/-- Witness for C2: the absent cell of a 1 %-missing column receives the
column mean; the absent cell of a 33.3 %-missing column receives the
column median; and the mean equals sum/count of the present values. -/
theorem imputed_cell_values_witness :
    (imputeVals exC2a 100)[99]? = some (xmean exC2a) ∧
    (imputeVals exC2 3)[2]? = some (xmedian exC2) ∧
    xmean exC2 = XVal.fin ((presentRats exC2).sum / ((presentRats exC2).length : ℚ)) :=
  ⟨(imputed_cell_values exC2a 100 99).1 (by with_unfolding_all decide)
      (by with_unfolding_all decide),
    (imputed_cell_values exC2 3 2).2.1 (by with_unfolding_all decide)
      (by with_unfolding_all decide),
    (imputed_cell_values exC2 3 0).2.2.2 (by with_unfolding_all decide)
      (by with_unfolding_all decide)⟩

/-! ## Health Expenditure Per Capita (C8) -/

theorem zipWith_getElem? (f : XVal → XVal → XVal) :
    ∀ (l1 l2 : List XVal) (i : ℕ) (a b : XVal),
      l1[i]? = some a → l2[i]? = some b →
      (List.zipWith f l1 l2)[i]? = some (f a b) := by
  intro l1
  induction l1 with
  | nil => intro l2 i a b h1 _; simp at h1
  | cons x t1 ih =>
      intro l2 i a b h1 h2
      cases l2 with
      | nil => simp at h2
      | cons y t2 =>
          cases i with
          | zero =>
              simp only [List.getElem?_cons_zero, Option.some.injEq] at h1 h2
              subst h1; subst h2
              simp [List.zipWith_cons_cons]
          | succ i =>
              simp only [List.getElem?_cons_succ] at h1 h2
              simpa [List.zipWith_cons_cons] using ih t2 i a b h1 h2

/-- C8: the derived `Health Expenditure Per Capita` cell is row-wise
`Total expenditure / (Population / 1000000)`; where `Population` is zero
or absent the result is non-finite (`±∞` or `NaN`), and the derived
column stores exactly that non-finite value — nothing is clamped,
dropped, or raised. -/
theorem hepc_nonfinite (totexp pop : List XVal) (i : ℕ) (a b : XVal)
    (ha : totexp[i]? = some a) (hb : pop[i]? = some b)
    (hz : b = XVal.fin 0 ∨ b = XVal.nan) :
    (hepcCol totexp pop)[i]? = some (XVal.div a (XVal.div b (XVal.fin 1000000))) ∧
    (XVal.div a (XVal.div b (XVal.fin 1000000))).isFinite = false := by
  refine ⟨zipWith_getElem? _ totexp pop i a b ha hb, ?_⟩
  rcases hz with rfl | rfl <;> cases a <;>
    simp only [XVal.div, XVal.isFinite] <;>
    norm_num <;> split_ifs <;> simp [XVal.isFinite]

/-- Witness for C8: `5 / (0 / 10⁶) = +∞` and `3 / (NaN / 10⁶) = NaN`
both land verbatim, non-finite, in the derived column. -/
theorem hepc_nonfinite_witness :
    (hepcCol exC8te exC8pop)[0]? = some XVal.pinf ∧
    (hepcCol exC8te exC8pop)[1]? = some XVal.nan := by
  have h0 := hepc_nonfinite exC8te exC8pop 0 (XVal.fin 5) (XVal.fin 0)
    (by decide) (by decide) (Or.inl rfl)
  have h1 := hepc_nonfinite exC8te exC8pop 1 (XVal.fin 3) XVal.nan
    (by decide) (by decide) (Or.inr rfl)
  constructor
  · rw [h0.1]
    with_unfolding_all decide
  · rw [h1.1]
    with_unfolding_all decide

/-! ## Group-by means and non-finite values (C10) -/

theorem xsum_fin_or_pinf {l : List XVal} (hn : XVal.ninf ∉ l)
    (hnan : XVal.nan ∉ l) : (∃ q, xsum l = XVal.fin q) ∨ xsum l = XVal.pinf := by
  induction l with
  | nil => exact Or.inl ⟨0, rfl⟩
  | cons x t ih =>
      have hxn : x ≠ XVal.ninf := fun h => hn (h ▸ List.mem_cons_self x t)
      have hxnan : x ≠ XVal.nan := fun h => hnan (h ▸ List.mem_cons_self x t)
      have ht := ih (fun h => hn (List.mem_cons_of_mem _ h))
        (fun h => hnan (List.mem_cons_of_mem _ h))
      have hx : xsum (x :: t) = XVal.add x (xsum t) := rfl
      cases x with
      | fin q =>
          rcases ht with ⟨r, hr⟩ | hr <;> rw [hx, hr]
          · exact Or.inl ⟨q + r, rfl⟩
          · exact Or.inr rfl
      | pinf =>
          rcases ht with ⟨r, hr⟩ | hr <;> rw [hx, hr] <;> exact Or.inr rfl
      | ninf => exact absurd rfl hxn
      | nan => exact absurd rfl hxnan

theorem xsum_pinf {l : List XVal} (hp : XVal.pinf ∈ l) (hn : XVal.ninf ∉ l)
    (hnan : XVal.nan ∉ l) : xsum l = XVal.pinf := by
  induction l with
  | nil => simp at hp
  | cons x t ih =>
      have hnt : XVal.ninf ∉ t := fun h => hn (List.mem_cons_of_mem _ h)
      have hnant : XVal.nan ∉ t := fun h => hnan (List.mem_cons_of_mem _ h)
      have hx : xsum (x :: t) = XVal.add x (xsum t) := rfl
      rcases List.mem_cons.mp hp with rfl | hp2
      · rcases xsum_fin_or_pinf hnt hnant with ⟨r, hr⟩ | hr <;> rw [hx, hr] <;> rfl
      · have hxn : x ≠ XVal.ninf := fun h => hn (h ▸ List.mem_cons_self x t)
        have hxnan : x ≠ XVal.nan := fun h => hnan (h ▸ List.mem_cons_self x t)
        rw [hx, ih hp2 hnt hnant]
        cases x with
        | fin q => rfl
        | pinf => rfl
        | ninf => exact absurd rfl hxn
        | nan => exact absurd rfl hxnan

theorem xmean_pinf {l : List XVal} (hp : XVal.pinf ∈ l)
    (hn : XVal.ninf ∉ l) : xmean l = XVal.pinf := by
  have hp2 : XVal.pinf ∈ presentVals l :=
    List.mem_filter.mpr ⟨hp, by decide⟩
  have hn2 : XVal.ninf ∉ presentVals l :=
    fun h => hn (List.mem_of_mem_filter h)
  have hnan2 : XVal.nan ∉ presentVals l := by
    intro h
    have := (List.mem_filter.mp h).2
    simp at this
  rw [xmean, xsum_pinf hp2 hn2 hnan2]
  simp only [XVal.div]
  rw [if_neg (not_lt.mpr (Nat.cast_nonneg _))]

/-- C10 (amended): in the pipeline's group-by mean aggregations, absent
(`NaN`) cells are skipped, and a group holding `+∞` but no `-∞` (the
only infinities the pipeline produces on data with non-negative
expenditure) gets an infinite mean; a group holding infinities of both
signs gets a `NaN` mean instead. -/
theorem groupby_mean_nonfinite (ks : List String) (vs : List XVal) (k : String)
    (m : XVal) (hm : (k, m) ∈ groupMeans ks vs)
    (hp : XVal.pinf ∈ groupVals ks vs k)
    (hn : XVal.ninf ∉ groupVals ks vs k) :
    m = XVal.pinf ∧ ∀ l : List XVal, xmean (l ++ [XVal.nan]) = xmean l := by
  constructor
  · rcases List.mem_map.mp hm with ⟨kk, _, heq⟩
    injection heq with h1 h2
    subst h1
    rw [← h2]
    exact xmean_pinf hp hn
  · intro l
    have hpv : presentVals (l ++ [XVal.nan]) = presentVals l := by
      simp [presentVals]
    rw [xmean, xmean, hpv]

/-- Witness for C10: the group `[1, +∞, NaN]` of country `"A"` has mean
`+∞`, and appending an absent cell to a column never changes its mean. -/
theorem groupby_mean_nonfinite_witness :
    xmean (groupVals exC10ks exC10vs "A") = XVal.pinf ∧
    xmean ([XVal.fin 1, XVal.fin 2] ++ [XVal.nan]) = xmean [XVal.fin 1, XVal.fin 2] := by
  have h := groupby_mean_nonfinite exC10ks exC10vs "A"
    (xmean (groupVals exC10ks exC10vs "A"))
    (by with_unfolding_all decide) (by with_unfolding_all decide)
    (by with_unfolding_all decide)
  exact ⟨h.1, h.2 [XVal.fin 1, XVal.fin 2]⟩

/-- Counterexample to C10 as stated: a country whose two rows get
`Health Expenditure Per Capita` `+∞` and `-∞` (opposite-signed
`Total expenditure`, zero `Population`) contains an infinite value, yet
its per-country mean is `NaN`, not an infinity. -/
theorem groupby_mean_nonfinite_counterexample :
    XVal.pinf ∈ (cleanDerived exC10).numColOf "Health Expenditure Per Capita" ∧
    groupMeansBy (cleanDerived exC10) "Country" "Health Expenditure Per Capita" =
      [("A", XVal.nan)] := by
  with_unfolding_all decide

/-! ## GDP decile labels (C3) -/

theorem quantileEdge_last (s : List ℚ) (h : s ≠ []) :
    quantileEdge s 10 = s.getD (s.length - 1) 0 := by
  have hn : 1 ≤ s.length := List.length_pos.mpr h
  have hcast : ((s.length : ℚ) - 1) * ((10 : ℕ) : ℚ) / 10 =
      ((((s.length : ℤ) - 1) : ℤ) : ℚ) := by
    push_cast
    ring
  have hfloor : ⌊((s.length : ℚ) - 1) * ((10 : ℕ) : ℚ) / 10⌋ = (s.length : ℤ) - 1 := by
    rw [hcast, Int.floor_intCast]
  simp only [quantileEdge, hfloor]
  rw [if_pos, show ((s.length : ℤ) - 1).toNat = s.length - 1 by omega]
  rw [hcast]
  push_cast [Int.toNat_of_nonneg (by omega : (0 : ℤ) ≤ (s.length : ℤ) - 1)]
  ring

theorem le_getD_last : ∀ {s : List ℚ}, s.Sorted (· ≤ ·) → ∀ {q : ℚ}, q ∈ s →
    q ≤ s.getD (s.length - 1) 0 := by
  intro s
  induction s with
  | nil => intro _ q hq; simp at hq
  | cons a t ih =>
      intro hs q hq
      rw [List.sorted_cons] at hs
      cases t with
      | nil =>
          rcases List.mem_cons.mp hq with rfl | h2
          · simp [List.getD]
          · simp at h2
      | cons b t2 =>
          have hlen : (a :: b :: t2).length - 1 = t2.length + 1 := by simp
          have hstep : (a :: b :: t2).getD (t2.length + 1) 0 =
              (b :: t2).getD ((b :: t2).length - 1) 0 := by
            simp [List.getD]
          rw [hlen, hstep]
          rcases List.mem_cons.mp hq with rfl | h2
          · have hidx : (b :: t2).length - 1 < (b :: t2).length := by simp
            have hmem : (b :: t2).getD ((b :: t2).length - 1) 0 ∈ (b :: t2) := by
              rw [List.getD_eq_getElem _ _ hidx]
              exact List.getElem_mem hidx
            exact hs.1 _ hmem
          · exact ih hs.2 h2

theorem qcutLabel_lt_ten {s : List ℚ} (hs : s.Sorted (· ≤ ·)) {q : ℚ}
    (hq : q ∈ s) : qcutLabel s q < 10 := by
  have hne : s ≠ [] := List.ne_nil_of_mem hq
  have hmax : q ≤ quantileEdge s 10 := by
    rw [quantileEdge_last s hne]
    exact le_getD_last hs hq
  rw [qcutLabel, show (10 : ℕ) = 9 + 1 from rfl, List.range_succ, List.map_append,
    List.countP_append]
  have h1 : ((List.range 9).map fun i => quantileEdge s (i + 1)).countP
      (fun e => decide (e < q)) ≤ 9 := by
    refine le_trans (List.countP_le_length _) ?_
    simp
  have h2 : (([9].map fun i => quantileEdge s (i + 1)).countP
      (fun e => decide (e < q))) = 0 := by
    simp [List.countP_cons, not_lt.mpr hmax]
  omega

/-- C3 (amended): whenever `pd.qcut` succeeds (the 11 quantile edges of
the present GDP values are pairwise distinct), every row with a present
GDP value gets an integer decile label in `0–9`, and `gdpDecileTrend`
has one bucket per distinct assigned label — at most 10, but possibly
fewer than 10 even when the table has ≥ 10 rows and GDP has ≥ 10
distinct present values (and with duplicate edges `qcut` raises instead
of producing fewer buckets). -/
theorem gdp_decile_labels (v : List XVal) (ls : List (Option ℕ))
    (hq : qcut10 v = some ls) :
    (∀ l ∈ ls, ∀ k : ℕ, l = some k → k < 10) ∧
    (∀ life : List XVal, (groupMeansNat (ls.zip life)).length ≤ 10) := by
  simp only [qcut10] at hq
  split_ifs at hq with h1 h2 h3
  obtain rfl := Option.some.inj hq
  have hsorted : ((presentRats v).insertionSort (· ≤ ·)).Sorted (· ≤ ·) :=
    List.sorted_insertionSort _ _
  have hbound : ∀ l ∈ v.map (fun x =>
      match x with
      | XVal.fin q => some (qcutLabel ((presentRats v).insertionSort (· ≤ ·)) q)
      | _ => none), ∀ k : ℕ, l = some k → k < 10 := by
    intro l hl k hlk
    rcases List.mem_map.mp hl with ⟨x, hx, rfl⟩
    cases x with
    | fin q =>
        simp only [Option.some.injEq] at hlk
        subst hlk
        have hqmem : q ∈ (presentRats v).insertionSort (· ≤ ·) :=
          (List.perm_insertionSort _ _).mem_iff.mpr
            (List.mem_filterMap.mpr ⟨XVal.fin q, hx, rfl⟩)
        exact qcutLabel_lt_ten hsorted hqmem
    | pinf => simp at hlk
    | ninf => simp at hlk
    | nan => simp at hlk
  refine ⟨hbound, fun life => ?_⟩
  set ls0 := v.map (fun x =>
      match x with
      | XVal.fin q => some (qcutLabel ((presentRats v).insertionSort (· ≤ ·)) q)
      | _ => none) with hls0
  rw [groupMeansNat, List.length_map,
    (List.perm_insertionSort _ _).length_eq]
  have hnodup : ((ls0.zip life).filterMap Prod.fst).dedup.Nodup := List.nodup_dedup _
  have hsub : ∀ k ∈ ((ls0.zip life).filterMap Prod.fst).dedup, k < 10 := by
    intro k hk
    rcases List.mem_filterMap.mp (List.mem_dedup.mp hk) with ⟨p, hp, hpk⟩
    exact hbound p.1 (List.of_mem_zip hp).1 k hpk
  calc ((ls0.zip life).filterMap Prod.fst).dedup.length
      = ((ls0.zip life).filterMap Prod.fst).dedup.toFinset.card :=
        (List.toFinset_card_of_nodup hnodup).symm
    _ ≤ (Finset.range 10).card := by
        refine Finset.card_le_card ?_
        intro k hk
        exact Finset.mem_range.mpr (hsub k (List.mem_toFinset.mp hk))
    _ = 10 := Finset.card_range 10

/-- Witness for C3 (amended): on 12 distinct GDP values `qcut` succeeds
and the decile trend has at most 10 buckets. -/
theorem gdp_decile_labels_witness :
    (groupMeansNat (((qcut10 exC3b).getD []).zip exC3life)).length ≤ 10 :=
  (gdp_decile_labels exC3b ((qcut10 exC3b).getD [])
    (by with_unfolding_all decide)).2 exC3life

/-- Counterexample to C3 as stated: `exC3` has 12 rows and 11 distinct
present GDP values, `qcut` succeeds, yet `gdpDecileTrend` produces 9
buckets, not 10 — the bin `(1, 1.2]` is empty. -/
theorem gdp_decile_counterexample :
    10 ≤ exC3.nrows ∧
    10 ≤ (presentRats (exC3.numColOf "GDP")).dedup.length ∧
    (gdpDecileTrend exC3).map List.length = some 9 := by
  with_unfolding_all decide

/-! ## Correlation matrix (C6) -/

theorem finPairs_swap (l : List (XVal × XVal)) :
    finPairs (l.map Prod.swap) = (finPairs l).map Prod.swap := by
  induction l with
  | nil => rfl
  | cons p t ih =>
      obtain ⟨a, b⟩ := p
      simp only [finPairs] at ih ⊢
      cases a <;> cases b <;>
        simp only [List.map_cons, List.filterMap_cons, Prod.swap_prod_mk] <;>
        rw [ih]

theorem sum_mul_swap (l : List (ℚ × ℚ)) :
    ((l.map Prod.swap).map fun p => p.1 * p.2).sum =
      (l.map fun p => p.1 * p.2).sum := by
  induction l with
  | nil => rfl
  | cons p t ih =>
      obtain ⟨a, b⟩ := p
      simp only [List.map_cons, List.sum_cons, List.map_map] at ih ⊢
      rw [ih]
      simp only [Prod.swap_prod_mk]
      ring

theorem covN_swap (l : List (ℚ × ℚ)) : covN (l.map Prod.swap) = covN l := by
  have h1 : ((l.map Prod.swap).map Prod.fst).sum = (l.map Prod.snd).sum := by
    rw [List.map_map]; rfl
  have h2 : ((l.map Prod.swap).map Prod.snd).sum = (l.map Prod.fst).sum := by
    rw [List.map_map]; rfl
  rw [covN, covN, h1, h2, sum_mul_swap, List.length_map]
  ring

theorem varNfst_swap (l : List (ℚ × ℚ)) : varNfst (l.map Prod.swap) = varNsnd l := by
  rw [varNfst, varNsnd, List.map_map]
  rfl

theorem varNsnd_swap (l : List (ℚ × ℚ)) : varNsnd (l.map Prod.swap) = varNfst l := by
  rw [varNfst, varNsnd, List.map_map]
  rfl

theorem corrEntry_symm (xs ys : List XVal) : corrEntry ys xs = corrEntry xs ys := by
  simp only [corrEntry]
  rw [← List.zip_swap xs ys, finPairs_swap, varNfst_swap, varNsnd_swap, covN_swap,
    mul_comm (varNsnd (finPairs (xs.zip ys))) (varNfst (finPairs (xs.zip ys))),
    mul_comm ((varNsnd (finPairs (xs.zip ys)) : ℚ) : ℝ)
      ((varNfst (finPairs (xs.zip ys)) : ℚ) : ℝ)]

theorem finPairs_zip_self (xs : List XVal) :
    finPairs (xs.zip xs) = (presentRats xs).map fun q => (q, q) := by
  induction xs with
  | nil => rfl
  | cons x t ih =>
      simp only [finPairs, presentRats] at ih ⊢
      cases x <;>
        simp only [List.zip_cons_cons, List.filterMap_cons, List.map_cons] <;>
        rw [ih]

theorem covN_dup (xs : List XVal) :
    covN ((presentRats xs).map fun q => (q, q)) = colVarN xs := by
  rw [covN, colVarN, List.map_map, List.map_map, List.map_map, List.length_map]
  rw [show List.map (Prod.fst ∘ fun q : ℚ => (q, q)) (presentRats xs) = presentRats xs from
      List.map_id' _,
    show List.map (Prod.snd ∘ fun q : ℚ => (q, q)) (presentRats xs) = presentRats xs from
      List.map_id' _]
  rfl

theorem varNfst_dup (l : List ℚ) :
    varNfst (l.map fun q => (q, q)) = covN (l.map fun q => (q, q)) := by
  rw [varNfst, List.map_map]
  rfl

theorem varNsnd_dup (l : List ℚ) :
    varNsnd (l.map fun q => (q, q)) = covN (l.map fun q => (q, q)) := by
  rw [varNsnd, List.map_map]
  rfl

theorem corrEntry_diag (xs : List XVal) (hvar : 0 < colVarN xs) :
    corrEntry xs xs = some 1 := by
  have hvf : varNfst ((presentRats xs).map fun q => (q, q)) = colVarN xs := by
    rw [varNfst_dup, covN_dup]
  have hvs : varNsnd ((presentRats xs).map fun q => (q, q)) = colVarN xs := by
    rw [varNsnd_dup, covN_dup]
  simp only [corrEntry, finPairs_zip_self, hvf, hvs, covN_dup]
  rw [if_neg (mul_pos hvar hvar).ne']
  have hpos : (0 : ℝ) < (colVarN xs : ℝ) := by exact_mod_cast hvar
  rw [Real.sqrt_mul_self hpos.le, div_self hpos.ne']

/-- C6 (amended): the correlation matrix over the seven fixed columns is
pairwise Pearson correlation computed over the rows where both cells are
finite (`DataFrame.corr` masks `NaN` and infinities pairwise via its
`isfinite` mask) and is symmetric; its diagonal entry for a column is
`1.0` whenever the column's finite values have nonzero variance — a
constant (or near-empty) column yields an undefined (`NaN`) diagonal
entry instead. -/
theorem corr_symmetric_unit_diagonal (t : Table) (i j : ℕ) :
    corrMatrix t i j = corrMatrix t j i ∧
    (0 < colVarN (t.numColOf (corrColumns.getD i "")) →
      corrMatrix t i i = some 1) :=
  ⟨corrEntry_symm _ _, fun hvar => corrEntry_diag _ hvar⟩

/-- Witness for C6: on the seven-column example table the `(0,1)` and
`(1,0)` entries agree and the `Life expectancy` diagonal entry is `1`;
on `exC6b` the diagonal is `1` even though the column contains `+∞`,
because the infinity is masked out like a missing value. -/
theorem corr_symmetric_unit_diagonal_witness :
    corrMatrix exC6 0 1 = corrMatrix exC6 1 0 ∧ corrMatrix exC6 0 0 = some 1 ∧
    corrMatrix exC6b 0 0 = some 1 :=
  ⟨(corr_symmetric_unit_diagonal exC6 0 1).1,
    (corr_symmetric_unit_diagonal exC6 0 0).2 (by with_unfolding_all decide),
    (corr_symmetric_unit_diagonal exC6b 0 0).2 (by with_unfolding_all decide)⟩

/-- Counterexample to C6 as stated: in `exC6` the `GDP` column is
constant, so its diagonal correlation entry is `NaN` (pandas divides a
zero covariance by a zero standard-deviation product), not `1.0`. -/
theorem corr_diag_counterexample : corrMatrix exC6 4 4 ≠ some 1 := by
  have hname : corrColumns.getD 4 "" = "GDP" := rfl
  simp only [corrMatrix, corrEntry, hname]
  rw [show varNfst (finPairs ((exC6.numColOf "GDP").zip (exC6.numColOf "GDP"))) *
      varNsnd (finPairs ((exC6.numColOf "GDP").zip (exC6.numColOf "GDP"))) = 0 from by
    with_unfolding_all decide]
  simp

end LifeExp
